import Mathlib

set_option maxRecDepth 4000

/-!
Shallow embedding of the Lox expression parser
(`src/lox-syntax/src/expr_parser.rs`).

The parser is a precedence-climbing ("Pratt") parser over a stream of
positioned tokens.  The Rust mutual recursion is embedded with an explicit
fuel parameter: `none` means the fuel ran out (which, as proved below, never
happens for the fuel budget used by the public entry point `parse`).

The token-stream cursor (`Parser` in `parser.rs`), the positioned-value
wrapper (`WithSpan`/`Span` in `position.rs`) and `expect_identifier`
(`common.rs`) are not part of the visible source slice; they are modelled
from the spec (section 6 of `spec.md`) where indicated.

Numeric literal payloads (`f64` in the source) are carried through the
parser completely opaquely, so they are represented here by `Nat`.
-/

inductive TokenKind where
  | Number
  | String
  | Identifier
  | Nil
  | This
  | True
  | False
  | Super
  | And
  | Or
  | Bang
  | BangEqual
  | Equal
  | EqualEqual
  | Less
  | LessEqual
  | Greater
  | GreaterEqual
  | Plus
  | Minus
  | Star
  | Slash
  | LeftParen
  | RightParen
  | RightBrace
  | Comma
  | Dot
  | Eof
  deriving DecidableEq, Repr

inductive Token where
  | Number (n : Nat)
  | String (s : String)
  | Identifier (s : String)
  | Nil
  | This
  | True
  | False
  | Super
  | And
  | Or
  | Bang
  | BangEqual
  | Equal
  | EqualEqual
  | Less
  | LessEqual
  | Greater
  | GreaterEqual
  | Plus
  | Minus
  | Star
  | Slash
  | LeftParen
  | RightParen
  | RightBrace
  | Comma
  | Dot
  | Eof
  deriving DecidableEq, Repr

/-- The lexical category of a token (`TokenKind::from` in `token.rs`). -/
def Token.kind : Token → TokenKind
  | .Number _ => .Number
  | .String _ => .String
  | .Identifier _ => .Identifier
  | .Nil => .Nil
  | .This => .This
  | .True => .True
  | .False => .False
  | .Super => .Super
  | .And => .And
  | .Or => .Or
  | .Bang => .Bang
  | .BangEqual => .BangEqual
  | .Equal => .Equal
  | .EqualEqual => .EqualEqual
  | .Less => .Less
  | .LessEqual => .LessEqual
  | .Greater => .Greater
  | .GreaterEqual => .GreaterEqual
  | .Plus => .Plus
  | .Minus => .Minus
  | .Star => .Star
  | .Slash => .Slash
  | .LeftParen => .LeftParen
  | .RightParen => .RightParen
  | .RightBrace => .RightBrace
  | .Comma => .Comma
  | .Dot => .Dot
  | .Eof => .Eof

/-- Modelled from the spec: a half-open source offset range (`position.rs`,
not in the visible slice). -/
structure Span where
  start : Nat
  stop : Nat
  deriving DecidableEq, Repr

/-- Modelled from the spec: the union of two spans covers both
(used for grouping and super spans). -/
def Span.union (a b : Span) : Span :=
  ⟨min a.start b.start, max a.stop b.stop⟩

/-- Modelled from the spec: a value paired with its source span
(`position.rs`, not in the visible slice). -/
structure WithSpan (α : Type) where
  value : α
  span : Span
  deriving DecidableEq, Repr

/-- Modelled from the spec: `WithSpan::empty` wraps a value with an empty
placeholder span (start = stop = 0) carrying no source position. -/
def WithSpan.empty {α : Type} (value : α) : WithSpan α :=
  ⟨value, ⟨0, 0⟩⟩

inductive UnaryOperator where
  | Bang
  | Minus
  deriving DecidableEq, Repr

inductive BinaryOperator where
  | BangEqual
  | EqualEqual
  | Less
  | LessEqual
  | Greater
  | GreaterEqual
  | Plus
  | Minus
  | Star
  | Slash
  deriving DecidableEq, Repr

inductive LogicalOperator where
  | And
  | Or
  deriving DecidableEq, Repr

/-- The expression AST (`ast.rs`); variants exactly as constructed by
`expr_parser.rs`. -/
inductive Expr where
  | Nil
  | Boolean (b : Bool)
  | Number (n : Nat)
  | String (s : String)
  | Variable (name : WithSpan String)
  | This
  | Super (name : WithSpan String)
  | Unary (op : WithSpan UnaryOperator) (e : Expr)
  | Binary (l : Expr) (op : WithSpan BinaryOperator) (r : Expr)
  | Logical (l : Expr) (op : WithSpan LogicalOperator) (r : Expr)
  | Grouping (e : Expr)
  | Call (callee : Expr) (args : List Expr)
  | Get (obj : Expr) (name : WithSpan String)
  | Set (obj : Expr) (name : WithSpan String) (v : Expr)
  | Assign (name : WithSpan String) (v : Expr)
  deriving Repr

inductive SyntaxError where
  | Unexpected (t : WithSpan Token)
  | Expected (k : TokenKind) (t : WithSpan Token)
  | ExpectedPrimary (t : WithSpan Token)
  | ExpectedUnaryOperator (t : WithSpan Token)
  | ExpectedBinaryOperator (t : WithSpan Token)
  | InvalidLeftValue (e : WithSpan Expr)
  deriving Repr

/-- The precedence enumeration (lines 10-22 of `expr_parser.rs`). -/
inductive Precedence where
  | None
  | Assign
  | Or
  | And
  | Equality
  | Comparison
  | Term
  | Factor
  | Unary
  | Call
  | Primary
  deriving DecidableEq, Repr

/-- The comparison key realizing the derived `PartialOrd` (declaration
order) on `Precedence`. -/
def Precedence.toNat : Precedence → Nat
  | .None => 0
  | .Assign => 1
  | .Or => 2
  | .And => 3
  | .Equality => 4
  | .Comparison => 5
  | .Term => 6
  | .Factor => 7
  | .Unary => 8
  | .Call => 9
  | .Primary => 10

/-- The precedence table `impl From<TokenKind> for Precedence`
(lines 24-43 of `expr_parser.rs`). -/
def Precedence.fromKind : TokenKind → Precedence
  | TokenKind.Equal => Precedence.Assign
  | TokenKind.Or => Precedence.Or
  | TokenKind.And => Precedence.And
  | TokenKind.BangEqual | TokenKind.EqualEqual => Precedence.Equality
  | TokenKind.Less
  | TokenKind.LessEqual
  | TokenKind.Greater
  | TokenKind.GreaterEqual => Precedence.Comparison
  | TokenKind.Plus | TokenKind.Minus => Precedence.Term
  | TokenKind.Star | TokenKind.Slash => Precedence.Factor
  | TokenKind.Bang => Precedence.Unary
  | TokenKind.LeftParen => Precedence.Call
  | TokenKind.Dot => Precedence.Call
  | _ => Precedence.None

/-- Modelled from the spec: the designated end-of-stream token returned by
the cursor when the stream is exhausted (spec section 6). -/
def eofToken : WithSpan Token :=
  ⟨Token.Eof, ⟨0, 0⟩⟩

/-- Modelled from the spec: `peek_token` looks at the next full token
without consuming (spec section 6). -/
def Parser.peek_token (toks : List (WithSpan Token)) (pos : Nat) : WithSpan Token :=
  (toks[pos]?).getD eofToken

/-- Modelled from the spec: `peek` looks at the next token kind without
consuming (spec section 6). -/
def Parser.peek (toks : List (WithSpan Token)) (pos : Nat) : TokenKind :=
  (Parser.peek_token toks pos).value.kind

/-- Modelled from the spec: `is_eof` tells whether the stream is exhausted
(spec section 6). -/
def Parser.is_eof (toks : List (WithSpan Token)) (pos : Nat) : Prop :=
  toks.length ≤ pos

instance (toks : List (WithSpan Token)) (pos : Nat) :
    Decidable (Parser.is_eof toks pos) :=
  Nat.decLe _ _

/-- Modelled from the spec: `check` tells whether the next token has the
given kind, without consuming (spec section 6). -/
def Parser.check (toks : List (WithSpan Token)) (pos : Nat) (kind : TokenKind) : Prop :=
  Parser.peek toks pos = kind

instance (toks : List (WithSpan Token)) (pos : Nat) (kind : TokenKind) :
    Decidable (Parser.check toks pos kind) :=
  instDecidableEqTokenKind _ _

/-- Modelled from the spec: `advance` consumes and returns the next token;
at end of stream it returns the designated end-of-stream token and leaves
the cursor in place (spec section 6). -/
def Parser.advance (toks : List (WithSpan Token)) (pos : Nat) : WithSpan Token × Nat :=
  match toks[pos]? with
  | some t => (t, pos + 1)
  | none => (eofToken, pos)

/-- Modelled from the spec: `expect` consumes the next token if it has the
given kind, else fails with `Expected(kind, actualToken)` (spec section 6). -/
def Parser.expect (toks : List (WithSpan Token)) (pos : Nat) (kind : TokenKind) :
    Except SyntaxError (WithSpan Token × Nat) :=
  if Parser.check toks pos kind then .ok (Parser.advance toks pos)
  else .error (.Expected kind (Parser.peek_token toks pos))

/-- Modelled from the spec: `expect_identifier` (`common.rs`) consumes the
next token and returns its name and span if it is an identifier, else fails
with `Expected(Identifier, actualToken)` (spec section 4.5). -/
def expect_identifier (toks : List (WithSpan Token)) (pos : Nat) :
    Except SyntaxError (WithSpan String × Nat) :=
  match Parser.advance toks pos with
  | (tc, next) =>
    match tc.value with
    | Token.Identifier i => .ok (⟨i, tc.span⟩, next)
    | _ => .error (.Expected TokenKind.Identifier tc)

/-- `parse_logical_op` (lines 160-169): note the source really returns
`ExpectedUnaryOperator` in its (unreachable) error branch. -/
def parse_logical_op (toks : List (WithSpan Token)) (pos : Nat) :
    Except SyntaxError (WithSpan LogicalOperator × Nat) :=
  match Parser.advance toks pos with
  | (tc, next) =>
    match tc.value with
    | Token.And => .ok (⟨LogicalOperator.And, tc.span⟩, next)
    | Token.Or => .ok (⟨LogicalOperator.Or, tc.span⟩, next)
    | _ => .error (.ExpectedUnaryOperator tc)

/-- `parse_unary_op` (lines 171-178). -/
def parse_unary_op (toks : List (WithSpan Token)) (pos : Nat) :
    Except SyntaxError (WithSpan UnaryOperator × Nat) :=
  match Parser.advance toks pos with
  | (tc, next) =>
    match tc.value with
    | Token.Bang => .ok (⟨UnaryOperator.Bang, tc.span⟩, next)
    | Token.Minus => .ok (⟨UnaryOperator.Minus, tc.span⟩, next)
    | _ => .error (.ExpectedUnaryOperator tc)

/-- `parse_binary_op` (lines 180-197). -/
def parse_binary_op (toks : List (WithSpan Token)) (pos : Nat) :
    Except SyntaxError (WithSpan BinaryOperator × Nat) :=
  match Parser.advance toks pos with
  | (tc, next) =>
    match tc.value with
    | Token.BangEqual => .ok (⟨BinaryOperator.BangEqual, tc.span⟩, next)
    | Token.EqualEqual => .ok (⟨BinaryOperator.EqualEqual, tc.span⟩, next)
    | Token.Less => .ok (⟨BinaryOperator.Less, tc.span⟩, next)
    | Token.LessEqual => .ok (⟨BinaryOperator.LessEqual, tc.span⟩, next)
    | Token.Greater => .ok (⟨BinaryOperator.Greater, tc.span⟩, next)
    | Token.GreaterEqual => .ok (⟨BinaryOperator.GreaterEqual, tc.span⟩, next)
    | Token.Plus => .ok (⟨BinaryOperator.Plus, tc.span⟩, next)
    | Token.Minus => .ok (⟨BinaryOperator.Minus, tc.span⟩, next)
    | Token.Star => .ok (⟨BinaryOperator.Star, tc.span⟩, next)
    | Token.Slash => .ok (⟨BinaryOperator.Slash, tc.span⟩, next)
    | _ => .error (.ExpectedBinaryOperator tc)

/-- `parse_get` (lines 93-100). -/
def parse_get (toks : List (WithSpan Token)) (left : Expr) (pos : Nat) :
    Except SyntaxError (Expr × Nat) :=
  match Parser.expect toks pos TokenKind.Dot with
  | .error e => .error e
  | .ok (_, pos1) =>
    match Parser.advance toks pos1 with
    | (tc, next) =>
      match tc.value with
      | Token.Identifier i => .ok (Expr.Get left ⟨i, tc.span⟩, next)
      | _ => .error (.Expected TokenKind.Identifier tc)

/-- `parse_super` (lines 214-219). -/
def parse_super (toks : List (WithSpan Token)) (keyword : WithSpan Token) (pos : Nat) :
    Except SyntaxError (WithSpan Expr × Nat) :=
  match Parser.expect toks pos TokenKind.Dot with
  | .error e => .error e
  | .ok (_, pos1) =>
    match expect_identifier toks pos1 with
    | .error e => .error e
    | .ok (name, pos2) =>
      .ok (⟨Expr.Super name, Span.union keyword.span name.span⟩, pos2)

/-- `parse_primary` (lines 199-212). -/
def parse_primary (toks : List (WithSpan Token)) (pos : Nat) :
    Except SyntaxError (WithSpan Expr × Nat) :=
  match Parser.advance toks pos with
  | (tc, next) =>
    match tc.value with
    | Token.Nil => .ok (⟨Expr.Nil, tc.span⟩, next)
    | Token.This => .ok (⟨Expr.This, tc.span⟩, next)
    | Token.Number n => .ok (⟨Expr.Number n, tc.span⟩, next)
    | Token.True => .ok (⟨Expr.Boolean true, tc.span⟩, next)
    | Token.False => .ok (⟨Expr.Boolean false, tc.span⟩, next)
    | Token.String s => .ok (⟨Expr.String s, tc.span⟩, next)
    | Token.Identifier s => .ok (⟨Expr.Variable ⟨s, tc.span⟩, tc.span⟩, next)
    | Token.Super => parse_super toks tc next
    | _ => .error (.ExpectedPrimary tc)

/-- Result of a fuel-indexed parsing function: `none` is fuel exhaustion;
otherwise the `Except` carries the source behaviour (error, or value plus
the new cursor position). -/
abbrev ParseResult (α : Type) := Option (Except SyntaxError (α × Nat))

/-- The Rust `?` operator on a fuel-indexed sub-parse: fuel exhaustion and
errors propagate, a value flows into the continuation. -/
def pbind {α β : Type} (m : ParseResult α) (k : α → Nat → ParseResult β) : ParseResult β :=
  match m with
  | none => none
  | some (.error e) => some (.error e)
  | some (.ok (a, p)) => k a p

/-- The Rust `?` operator on a non-recursive fallible step: errors
propagate, a value flows into the continuation. -/
def ebind {α β : Type} (m : Except SyntaxError (α × Nat)) (k : α → Nat → ParseResult β) :
    ParseResult β :=
  match m with
  | .error e => some (.error e)
  | .ok (a, p) => k a p

mutual

/-- `parse_expr` (lines 45-55): parse one prefix expression, then run the
precedence-climbing loop. -/
def parse_expr (fuel : Nat) (precedence : Precedence)
    (toks : List (WithSpan Token)) (pos : Nat) : ParseResult Expr :=
  match fuel with
  | 0 => none
  | fuel' + 1 =>
    pbind ( parse_prefix fuel' toks pos) fun expr pos1 =>
      parse_expr_loop fuel' precedence expr toks pos1
termination_by structural fuel

/-- The `while` loop of `parse_expr` (lines 47-53): while not at end of
stream and the next token's precedence strictly exceeds the bound, consume
one infix operator. -/
def parse_expr_loop (fuel : Nat) (precedence : Precedence) (expr : Expr)
    (toks : List (WithSpan Token)) (pos : Nat) : ParseResult Expr :=
  match fuel with
  | 0 => none
  | fuel' + 1 =>
    if Parser.is_eof toks pos then some (.ok (expr, pos))
    else if (Precedence.fromKind (Parser.peek toks pos)).toNat ≤ precedence.toNat then
      some (.ok (expr, pos))
    else
      pbind ( parse_infix fuel' expr toks pos) fun expr2 pos2 =>
        parse_expr_loop fuel' precedence expr2 toks pos2
termination_by structural fuel

/-- `parse_infix` (lines 57-75). -/
def parse_infix (fuel : Nat) (left : Expr)
    (toks : List (WithSpan Token)) (pos : Nat) : ParseResult Expr :=
  match fuel with
  | 0 => none
  | fuel' + 1 =>
    match Parser.peek toks pos with
    | TokenKind.BangEqual
    | TokenKind.EqualEqual
    | TokenKind.Less
    | TokenKind.LessEqual
    | TokenKind.Greater
    | TokenKind.GreaterEqual
    | TokenKind.Plus
    | TokenKind.Minus
    | TokenKind.Star
    | TokenKind.Slash => parse_binary fuel' left toks pos
    | TokenKind.Or | TokenKind.And => parse_logical fuel' left toks pos
    | TokenKind.Equal => parse_assign fuel' left toks pos
    | TokenKind.LeftParen => parse_call fuel' left toks pos
    | TokenKind.Dot => some (parse_get toks left pos)
    | _ => some (.error (.Unexpected (Parser.peek_token toks pos)))
termination_by structural fuel

/-- `parse_prefix` (lines 77-91). -/
def parse_prefix (fuel : Nat)
    (toks : List (WithSpan Token)) (pos : Nat) : ParseResult Expr :=
  match fuel with
  | 0 => none
  | fuel' + 1 =>
    match Parser.peek toks pos with
    | TokenKind.Number
    | TokenKind.Nil
    | TokenKind.This
    | TokenKind.True
    | TokenKind.False
    | TokenKind.Identifier
    | TokenKind.Super
    | TokenKind.String =>
      ebind (parse_primary toks pos) fun ws pos1 => some (.ok (ws.value, pos1))
    | TokenKind.Bang | TokenKind.Minus => parse_unary fuel' toks pos
    | TokenKind.LeftParen =>
      pbind (parse_grouping fuel' toks pos) fun ws pos1 => some (.ok (ws.value, pos1))
    | _ => some (.error (.Unexpected (Parser.peek_token toks pos)))
termination_by structural fuel

/-- `parse_unary` (lines 154-158). -/
def parse_unary (fuel : Nat)
    (toks : List (WithSpan Token)) (pos : Nat) : ParseResult Expr :=
  match fuel with
  | 0 => none
  | fuel' + 1 =>
    ebind (parse_unary_op toks pos) fun operator pos1 =>
      pbind (parse_expr fuel' Precedence.Unary toks pos1) fun right pos2 =>
        some (.ok (Expr.Unary operator right, pos2))
termination_by structural fuel

/-- `parse_grouping` (lines 138-145). -/
def parse_grouping (fuel : Nat)
    (toks : List (WithSpan Token)) (pos : Nat) : ParseResult (WithSpan Expr) :=
  match fuel with
  | 0 => none
  | fuel' + 1 =>
    ebind (Parser.expect toks pos TokenKind.LeftParen) fun left_paren pos1 =>
      pbind (parse_expr fuel' Precedence.None toks pos1) fun expr pos2 =>
        ebind (Parser.expect toks pos2 TokenKind.RightParen) fun right_paren pos3 =>
          some (.ok (⟨Expr.Grouping expr, Span.union left_paren.span right_paren.span⟩, pos3))
termination_by structural fuel

/-- `parse_binary` (lines 147-152). -/
def parse_binary (fuel : Nat) (left : Expr)
    (toks : List (WithSpan Token)) (pos : Nat) : ParseResult Expr :=
  match fuel with
  | 0 => none
  | fuel' + 1 =>
    let precedence := Precedence.fromKind (Parser.peek toks pos)
    ebind (parse_binary_op toks pos) fun operator pos1 =>
      pbind (parse_expr fuel' precedence toks pos1) fun right pos2 =>
        some (.ok (Expr.Binary left operator right, pos2))
termination_by structural fuel

/-- `parse_logical` (lines 131-136). -/
def parse_logical (fuel : Nat) (left : Expr)
    (toks : List (WithSpan Token)) (pos : Nat) : ParseResult Expr :=
  match fuel with
  | 0 => none
  | fuel' + 1 =>
    let precedence := Precedence.fromKind (Parser.peek toks pos)
    ebind (parse_logical_op toks pos) fun operator pos1 =>
      pbind (parse_expr fuel' precedence toks pos1) fun right pos2 =>
        some (.ok (Expr.Logical left operator right, pos2))
termination_by structural fuel

/-- `parse_assign` (lines 121-129). -/
def parse_assign (fuel : Nat) (left : Expr)
    (toks : List (WithSpan Token)) (pos : Nat) : ParseResult Expr :=
  match fuel with
  | 0 => none
  | fuel' + 1 =>
    ebind (Parser.expect toks pos TokenKind.Equal) fun _ pos1 =>
      pbind (parse_expr fuel' Precedence.None toks pos1) fun right pos2 =>
        match left with
        | Expr.Variable i => some (.ok (Expr.Assign i right, pos2))
        | Expr.Get l i => some (.ok (Expr.Set l i right, pos2))
        | e => some (.error (.InvalidLeftValue (WithSpan.empty e)))
termination_by structural fuel

/-- `parse_call` (lines 102-107). -/
def parse_call (fuel : Nat) (left : Expr)
    (toks : List (WithSpan Token)) (pos : Nat) : ParseResult Expr :=
  match fuel with
  | 0 => none
  | fuel' + 1 =>
    ebind (Parser.expect toks pos TokenKind.LeftParen) fun _ pos1 =>
      pbind (parse_arguments fuel' toks pos1) fun args pos2 =>
        ebind (Parser.expect toks pos2 TokenKind.RightParen) fun _ pos3 =>
          some (.ok (Expr.Call left args, pos3))
termination_by structural fuel

/-- `parse_arguments` (lines 109-119): empty list if `)` is next, else one
expression followed by the comma loop. -/
def parse_arguments (fuel : Nat)
    (toks : List (WithSpan Token)) (pos : Nat) : ParseResult (List Expr) :=
  match fuel with
  | 0 => none
  | fuel' + 1 =>
    if Parser.check toks pos TokenKind.RightParen then some (.ok ([], pos))
    else
      pbind (parse_expr fuel' Precedence.None toks pos) fun arg pos1 =>
        pbind (parse_arguments_loop fuel' toks pos1) fun args pos2 =>
          some (.ok (arg :: args, pos2))
termination_by structural fuel

/-- The `while` loop of `parse_arguments` (lines 113-116): as long as a
comma is next, consume it and parse another argument. -/
def parse_arguments_loop (fuel : Nat)
    (toks : List (WithSpan Token)) (pos : Nat) : ParseResult (List Expr) :=
  match fuel with
  | 0 => none
  | fuel' + 1 =>
    if Parser.check toks pos TokenKind.Comma then
      ebind (Parser.expect toks pos TokenKind.Comma) fun _ pos1 =>
        pbind (parse_expr fuel' Precedence.None toks pos1) fun arg pos2 =>
          pbind (parse_arguments_loop fuel' toks pos2) fun args pos3 =>
            some (.ok (arg :: args, pos3))
    else some (.ok ([], pos))
termination_by structural fuel

end

/-- The public entry point `parse` (lines 221-223): the driver with the
lowest bound, given a fuel budget (proved sufficient below) so that the
result also reports the final cursor position. -/
def parse (toks : List (WithSpan Token)) : ParseResult Expr :=
  parse_expr (8 * toks.length + 8) Precedence.None toks 0


/-! ### Characterization of the combinators -/

theorem pbind_eq_ok {α β : Type} {m : ParseResult α} {k : α → Nat → ParseResult β}
    {b : β} {p' : Nat} :
    pbind m k = some (.ok (b, p')) ↔
      ∃ a p, m = some (.ok (a, p)) ∧ k a p = some (.ok (b, p')) := by
  cases m with
  | none => simp [pbind]
  | some r =>
    cases r with
    | error e => simp [pbind]
    | ok ap =>
      obtain ⟨a, p⟩ := ap
      simp only [pbind]
      exact ⟨fun h => ⟨a, p, rfl, h⟩, by rintro ⟨a', p', h1, h⟩; cases h1; exact h⟩

theorem pbind_eq_error {α β : Type} {m : ParseResult α} {k : α → Nat → ParseResult β}
    {e : SyntaxError} :
    pbind m k = some (.error e) ↔
      m = some (.error e) ∨ ∃ a p, m = some (.ok (a, p)) ∧ k a p = some (.error e) := by
  cases m with
  | none => simp [pbind]
  | some r =>
    cases r with
    | error e' => simp [pbind]
    | ok ap =>
      obtain ⟨a, p⟩ := ap
      simp only [pbind]
      constructor
      · intro h; exact Or.inr ⟨a, p, rfl, h⟩
      · rintro (h | ⟨a', p', h1, h⟩)
        · cases h
        · cases h1; exact h

theorem pbind_ne_none {α β : Type} {m : ParseResult α} {k : α → Nat → ParseResult β}
    (h1 : m ≠ none) (h2 : ∀ a p, m = some (.ok (a, p)) → k a p ≠ none) :
    pbind m k ≠ none := by
  cases m with
  | none => exact absurd rfl h1
  | some r =>
    cases r with
    | error e => simp [pbind]
    | ok ap => obtain ⟨a, p⟩ := ap; simpa [pbind] using h2 a p rfl

theorem ebind_eq_ok {α β : Type} {m : Except SyntaxError (α × Nat)}
    {k : α → Nat → ParseResult β} {b : β} {p' : Nat} :
    ebind m k = some (.ok (b, p')) ↔
      ∃ a p, m = .ok (a, p) ∧ k a p = some (.ok (b, p')) := by
  cases m with
  | error e => simp [ebind]
  | ok ap =>
    obtain ⟨a, p⟩ := ap
    simp only [ebind]
    exact ⟨fun h => ⟨a, p, rfl, h⟩, by rintro ⟨a', p', h1, h⟩; cases h1; exact h⟩

theorem ebind_eq_error {α β : Type} {m : Except SyntaxError (α × Nat)}
    {k : α → Nat → ParseResult β} {e : SyntaxError} :
    ebind m k = some (.error e) ↔
      m = .error e ∨ ∃ a p, m = .ok (a, p) ∧ k a p = some (.error e) := by
  cases m with
  | error e' => simp [ebind]
  | ok ap =>
    obtain ⟨a, p⟩ := ap
    simp only [ebind]
    constructor
    · intro h; exact Or.inr ⟨a, p, rfl, h⟩
    · rintro (h | ⟨a', p', h1, h⟩)
      · cases h
      · cases h1; exact h

theorem ebind_ne_none {α β : Type} {m : Except SyntaxError (α × Nat)}
    {k : α → Nat → ParseResult β}
    (h2 : ∀ a p, m = .ok (a, p) → k a p ≠ none) :
    ebind m k ≠ none := by
  cases m with
  | error e => simp [ebind]
  | ok ap => obtain ⟨a, p⟩ := ap; simpa [ebind] using h2 a p rfl

/-! ### Basic cursor lemmas -/

theorem Parser.peek_token_eq_eofToken {toks : List (WithSpan Token)} {pos : Nat}
    (h : toks.length ≤ pos) : Parser.peek_token toks pos = eofToken := by
  simp [Parser.peek_token, List.getElem?_eq_none h]

theorem Parser.peek_eq_eof {toks : List (WithSpan Token)} {pos : Nat}
    (h : toks.length ≤ pos) : Parser.peek toks pos = TokenKind.Eof := by
  simp [Parser.peek, Parser.peek_token_eq_eofToken h, eofToken, Token.kind]

theorem Parser.lt_length_of_peek_ne_eof {toks : List (WithSpan Token)} {pos : Nat}
    (h : Parser.peek toks pos ≠ TokenKind.Eof) : pos < toks.length := by
  by_contra hc
  exact h (Parser.peek_eq_eof (by omega))

theorem Parser.advance_of_lt {toks : List (WithSpan Token)} {pos : Nat}
    (h : pos < toks.length) :
    Parser.advance toks pos = (Parser.peek_token toks pos, pos + 1) := by
  simp [Parser.advance, Parser.peek_token, List.getElem?_eq_getElem h]

theorem Parser.advance_fst (toks : List (WithSpan Token)) (pos : Nat) :
    (Parser.advance toks pos).1 = Parser.peek_token toks pos := by
  unfold Parser.advance Parser.peek_token
  cases h : toks[pos]? <;> simp [h]

theorem Parser.advance_snd_ge (toks : List (WithSpan Token)) (pos : Nat) :
    pos ≤ (Parser.advance toks pos).2 := by
  unfold Parser.advance
  cases h : toks[pos]? <;> simp [h]

theorem Parser.expect_ok {toks : List (WithSpan Token)} {pos : Nat} {kind : TokenKind}
    {t : WithSpan Token} {pos' : Nat}
    (h : Parser.expect toks pos kind = .ok (t, pos')) (hk : kind ≠ TokenKind.Eof) :
    Parser.peek toks pos = kind ∧ t = Parser.peek_token toks pos ∧
      pos' = pos + 1 ∧ pos < toks.length := by
  unfold Parser.expect at h
  split at h
  case isTrue hchk =>
    have hpk : Parser.peek toks pos = kind := hchk
    have hlt : pos < toks.length :=
      Parser.lt_length_of_peek_ne_eof (by rw [hpk]; exact hk)
    rw [Parser.advance_of_lt hlt] at h
    cases h
    exact ⟨hpk, rfl, rfl, hlt⟩
  case isFalse => cases h

/-! ### Characterization of the operator helpers -/

theorem parse_unary_op_ok {toks : List (WithSpan Token)} {pos : Nat}
    {op : WithSpan UnaryOperator} {pos1 : Nat}
    (h : parse_unary_op toks pos = .ok (op, pos1)) :
    pos1 = pos + 1 ∧ pos < toks.length := by
  by_cases hlt : pos < toks.length
  · refine ⟨?_, hlt⟩
    unfold parse_unary_op at h
    rw [Parser.advance_of_lt hlt] at h
    cases hv : (Parser.peek_token toks pos).value <;> simp_all
  · exfalso
    unfold parse_unary_op Parser.advance at h
    rw [List.getElem?_eq_none (by omega)] at h
    simp [eofToken] at h

theorem parse_binary_op_ok {toks : List (WithSpan Token)} {pos : Nat}
    {op : WithSpan BinaryOperator} {pos1 : Nat}
    (h : parse_binary_op toks pos = .ok (op, pos1)) :
    pos1 = pos + 1 ∧ pos < toks.length := by
  by_cases hlt : pos < toks.length
  · refine ⟨?_, hlt⟩
    unfold parse_binary_op at h
    rw [Parser.advance_of_lt hlt] at h
    cases hv : (Parser.peek_token toks pos).value <;> simp_all
  · exfalso
    unfold parse_binary_op Parser.advance at h
    rw [List.getElem?_eq_none (by omega)] at h
    simp [eofToken] at h

theorem parse_logical_op_ok {toks : List (WithSpan Token)} {pos : Nat}
    {op : WithSpan LogicalOperator} {pos1 : Nat}
    (h : parse_logical_op toks pos = .ok (op, pos1)) :
    pos1 = pos + 1 ∧ pos < toks.length := by
  by_cases hlt : pos < toks.length
  · refine ⟨?_, hlt⟩
    unfold parse_logical_op at h
    rw [Parser.advance_of_lt hlt] at h
    cases hv : (Parser.peek_token toks pos).value <;> simp_all
  · exfalso
    unfold parse_logical_op Parser.advance at h
    rw [List.getElem?_eq_none (by omega)] at h
    simp [eofToken] at h

theorem expect_identifier_ok {toks : List (WithSpan Token)} {pos : Nat}
    {name : WithSpan String} {pos1 : Nat}
    (h : expect_identifier toks pos = .ok (name, pos1)) :
    pos1 = pos + 1 ∧ pos < toks.length := by
  by_cases hlt : pos < toks.length
  · refine ⟨?_, hlt⟩
    unfold expect_identifier at h
    rw [Parser.advance_of_lt hlt] at h
    cases hv : (Parser.peek_token toks pos).value <;> simp_all
  · exfalso
    unfold expect_identifier Parser.advance at h
    rw [List.getElem?_eq_none (by omega)] at h
    simp [eofToken] at h

theorem parse_super_ok {toks : List (WithSpan Token)} {kw : WithSpan Token} {pos : Nat}
    {ws : WithSpan Expr} {pos' : Nat}
    (h : parse_super toks kw pos = .ok (ws, pos')) : pos < pos' := by
  unfold parse_super at h
  cases hd : Parser.expect toks pos TokenKind.Dot with
  | error e => rw [hd] at h; cases h
  | ok r =>
    obtain ⟨t1, pos1⟩ := r
    rw [hd] at h
    simp only at h
    obtain ⟨-, -, hp1, -⟩ := Parser.expect_ok hd (by decide)
    cases hi : expect_identifier toks pos1 with
    | error e => rw [hi] at h; cases h
    | ok r2 =>
      obtain ⟨nm, pos2⟩ := r2
      rw [hi] at h
      simp only at h
      obtain ⟨hp2, -⟩ := expect_identifier_ok hi
      obtain ⟨-, rfl⟩ := h
      omega

theorem parse_primary_ok {toks : List (WithSpan Token)} {pos : Nat}
    {ws : WithSpan Expr} {pos' : Nat}
    (h : parse_primary toks pos = .ok (ws, pos')) :
    pos < pos' ∧ pos < toks.length := by
  by_cases hlt : pos < toks.length
  · refine ⟨?_, hlt⟩
    unfold parse_primary at h
    rw [Parser.advance_of_lt hlt] at h
    simp only at h
    cases hv : (Parser.peek_token toks pos).value <;> rw [hv] at h <;>
      simp only at h <;>
      first
        | omega
        | (have hsp := parse_super_ok h; omega)
        | (obtain ⟨-, rfl⟩ := h; omega)
        | cases h
  · exfalso
    unfold parse_primary Parser.advance at h
    rw [List.getElem?_eq_none (by omega)] at h
    simp [eofToken] at h

theorem parse_get_ok {toks : List (WithSpan Token)} {left : Expr} {pos : Nat}
    {e : Expr} {pos' : Nat}
    (h : parse_get toks left pos = .ok (e, pos')) :
    pos < pos' ∧ pos < toks.length := by
  unfold parse_get at h
  cases hd : Parser.expect toks pos TokenKind.Dot with
  | error er => rw [hd] at h; cases h
  | ok r =>
    obtain ⟨t1, pos1⟩ := r
    rw [hd] at h
    simp only at h
    obtain ⟨-, -, hp1, hlt⟩ := Parser.expect_ok hd (by decide)
    refine ⟨?_, hlt⟩
    have hge := Parser.advance_snd_ge toks pos1
    rcases ha : Parser.advance toks pos1 with ⟨tc, next⟩
    rw [ha] at h hge
    simp only at h hge
    cases hv : tc.value <;> rw [hv] at h <;>
      simp only at h <;>
      first
        | (obtain ⟨-, rfl⟩ := h; omega)
        | cases h

theorem parse_unary_op_of_peek {toks : List (WithSpan Token)} {pos : Nat}
    (h : Parser.peek toks pos = TokenKind.Bang ∨ Parser.peek toks pos = TokenKind.Minus) :
    ∃ op, parse_unary_op toks pos = .ok (op, pos + 1) := by
  have hne : Parser.peek toks pos ≠ TokenKind.Eof := by
    rcases h with h | h <;> rw [h] <;> decide
  have hlt := Parser.lt_length_of_peek_ne_eof hne
  unfold parse_unary_op
  rw [Parser.advance_of_lt hlt]
  unfold Parser.peek at h
  cases hv : (Parser.peek_token toks pos).value <;> simp_all [Token.kind]

theorem parse_logical_op_of_peek {toks : List (WithSpan Token)} {pos : Nat}
    (h : Parser.peek toks pos = TokenKind.Or ∨ Parser.peek toks pos = TokenKind.And) :
    ∃ op, parse_logical_op toks pos = .ok (op, pos + 1) := by
  have hne : Parser.peek toks pos ≠ TokenKind.Eof := by
    rcases h with h | h <;> rw [h] <;> decide
  have hlt := Parser.lt_length_of_peek_ne_eof hne
  unfold parse_logical_op
  rw [Parser.advance_of_lt hlt]
  unfold Parser.peek at h
  cases hv : (Parser.peek_token toks pos).value <;> simp_all [Token.kind]

theorem parse_binary_op_of_peek {toks : List (WithSpan Token)} {pos : Nat}
    (h : Parser.peek toks pos = TokenKind.BangEqual ∨
         Parser.peek toks pos = TokenKind.EqualEqual ∨
         Parser.peek toks pos = TokenKind.Less ∨
         Parser.peek toks pos = TokenKind.LessEqual ∨
         Parser.peek toks pos = TokenKind.Greater ∨
         Parser.peek toks pos = TokenKind.GreaterEqual ∨
         Parser.peek toks pos = TokenKind.Plus ∨
         Parser.peek toks pos = TokenKind.Minus ∨
         Parser.peek toks pos = TokenKind.Star ∨
         Parser.peek toks pos = TokenKind.Slash) :
    ∃ op, parse_binary_op toks pos = .ok (op, pos + 1) := by
  have hne : Parser.peek toks pos ≠ TokenKind.Eof := by
    rcases h with h | h | h | h | h | h | h | h | h | h <;> rw [h] <;> decide
  have hlt := Parser.lt_length_of_peek_ne_eof hne
  unfold parse_binary_op
  rw [Parser.advance_of_lt hlt]
  unfold Parser.peek at h
  cases hv : (Parser.peek_token toks pos).value <;> simp_all [Token.kind]

/-! ### Progress: successful parses consume tokens -/

/-- Every successful run of a fuel-indexed parsing function moves the cursor
as the source does: the prefix recognizer, the infix dispatcher and all the
operator-specific parsers consume at least one token, the two loops never
move the cursor backwards. -/
theorem parse_progress : ∀ fuel : Nat,
    (∀ precedence toks pos e p', parse_expr fuel precedence toks pos = some (.ok (e, p')) →
      pos < p' ∧ pos < List.length toks) ∧
    (∀ precedence expr toks pos e p',
      parse_expr_loop fuel precedence expr toks pos = some (.ok (e, p')) → pos ≤ p') ∧
    (∀ left toks pos e p', parse_infix fuel left toks pos = some (.ok (e, p')) →
      pos < p' ∧ pos < List.length toks) ∧
    (∀ toks pos e p', parse_prefix fuel toks pos = some (.ok (e, p')) →
      pos < p' ∧ pos < List.length toks) ∧
    (∀ toks pos e p', parse_unary fuel toks pos = some (.ok (e, p')) →
      pos < p' ∧ pos < List.length toks) ∧
    (∀ toks pos ws p', parse_grouping fuel toks pos = some (.ok (ws, p')) →
      pos < p' ∧ pos < List.length toks) ∧
    (∀ left toks pos e p', parse_binary fuel left toks pos = some (.ok (e, p')) →
      pos < p' ∧ pos < List.length toks) ∧
    (∀ left toks pos e p', parse_logical fuel left toks pos = some (.ok (e, p')) →
      pos < p' ∧ pos < List.length toks) ∧
    (∀ left toks pos e p', parse_assign fuel left toks pos = some (.ok (e, p')) →
      pos < p' ∧ pos < List.length toks) ∧
    (∀ left toks pos e p', parse_call fuel left toks pos = some (.ok (e, p')) →
      pos < p' ∧ pos < List.length toks) ∧
    (∀ toks pos args p', parse_arguments fuel toks pos = some (.ok (args, p')) →
      pos ≤ p') ∧
    (∀ toks pos args p', parse_arguments_loop fuel toks pos = some (.ok (args, p')) →
      pos ≤ p') := by
  intro fuel
  induction fuel with
  | zero =>
    simp [parse_expr, parse_expr_loop, parse_infix, parse_prefix, parse_unary,
      parse_grouping, parse_binary, parse_logical, parse_assign, parse_call,
      parse_arguments, parse_arguments_loop]
  | succ f ih =>
    obtain ⟨ihP, ihL, ihI, ihPre, ihU, ihG, ihB, ihLg, ihAs, ihC, ihArgs, ihAL⟩ := ih
    refine ⟨?_, ?_, ?_, ?_, ?_, ?_, ?_, ?_, ?_, ?_, ?_, ?_⟩
    · -- parse_expr
      intro precedence toks pos e p' h
      simp only [parse_expr] at h
      rw [pbind_eq_ok] at h
      obtain ⟨e1, pos1, hpre, hloop⟩ := h
      have h1 := ihPre toks pos e1 pos1 hpre
      have h2 := ihL precedence e1 toks pos1 e p' hloop
      exact ⟨by omega, h1.2⟩
    · -- parse_expr_loop
      intro precedence expr toks pos e p' h
      simp only [parse_expr_loop] at h
      split_ifs at h
      · simp only [Option.some.injEq, Except.ok.injEq, Prod.mk.injEq] at h
        omega
      · simp only [Option.some.injEq, Except.ok.injEq, Prod.mk.injEq] at h
        omega
      · rw [pbind_eq_ok] at h
        obtain ⟨e2, pos2, hinf, hloop⟩ := h
        have h1 := ihI expr toks pos e2 pos2 hinf
        have h2 := ihL precedence e2 toks pos2 e p' hloop
        omega
    · -- parse_infix
      intro left toks pos e p' h
      simp only [ parse_infix] at h
      split at h
      all_goals first
        | exact ihB _ _ _ _ _ h
        | exact ihLg _ _ _ _ _ h
        | exact ihAs _ _ _ _ _ h
        | exact ihC _ _ _ _ _ h
        | (simp only [Option.some.injEq] at h; exact parse_get_ok h)
        | simp at h
    · -- parse_prefix
      intro toks pos e p' h
      simp only [ parse_prefix] at h
      split at h
      all_goals first
        | exact ihU _ _ _ _ h
        | (rw [ebind_eq_ok] at h
           obtain ⟨ws, pos1, hp, hk⟩ := h
           simp only [Option.some.injEq, Except.ok.injEq, Prod.mk.injEq] at hk
           obtain ⟨-, rfl⟩ := hk
           exact parse_primary_ok hp)
        | (rw [pbind_eq_ok] at h
           obtain ⟨ws, pos1, hg, hk⟩ := h
           simp only [Option.some.injEq, Except.ok.injEq, Prod.mk.injEq] at hk
           obtain ⟨-, rfl⟩ := hk
           exact ihG _ _ _ _ hg)
        | simp at h
    · -- parse_unary
      intro toks pos e p' h
      simp only [parse_unary] at h
      rw [ebind_eq_ok] at h
      obtain ⟨op, pos1, hop, h⟩ := h
      rw [pbind_eq_ok] at h
      obtain ⟨r, pos2, hex, hk⟩ := h
      simp only [Option.some.injEq, Except.ok.injEq, Prod.mk.injEq] at hk
      obtain ⟨-, rfl⟩ := hk
      obtain ⟨rfl, hlt⟩ := parse_unary_op_ok hop
      have := ihP Precedence.Unary toks (pos + 1) r pos2 hex
      exact ⟨by omega, hlt⟩
    · -- parse_grouping
      intro toks pos ws p' h
      simp only [parse_grouping] at h
      rw [ebind_eq_ok] at h
      obtain ⟨lp, pos1, hlp, h⟩ := h
      obtain ⟨-, -, rfl, hlt⟩ := Parser.expect_ok hlp (by decide)
      rw [pbind_eq_ok] at h
      obtain ⟨e1, pos2, hex, h⟩ := h
      rw [ebind_eq_ok] at h
      obtain ⟨rp, pos3, hrp, hk⟩ := h
      obtain ⟨-, -, rfl, -⟩ := Parser.expect_ok hrp (by decide)
      simp only [Option.some.injEq, Except.ok.injEq, Prod.mk.injEq] at hk
      obtain ⟨-, rfl⟩ := hk
      have := ihP Precedence.None toks (pos + 1) e1 pos2 hex
      exact ⟨by omega, hlt⟩
    · -- parse_binary
      intro left toks pos e p' h
      simp only [parse_binary] at h
      rw [ebind_eq_ok] at h
      obtain ⟨op, pos1, hop, h⟩ := h
      rw [pbind_eq_ok] at h
      obtain ⟨r, pos2, hex, hk⟩ := h
      simp only [Option.some.injEq, Except.ok.injEq, Prod.mk.injEq] at hk
      obtain ⟨-, rfl⟩ := hk
      obtain ⟨rfl, hlt⟩ := parse_binary_op_ok hop
      have := ihP _ toks (pos + 1) r pos2 hex
      exact ⟨by omega, hlt⟩
    · -- parse_logical
      intro left toks pos e p' h
      simp only [parse_logical] at h
      rw [ebind_eq_ok] at h
      obtain ⟨op, pos1, hop, h⟩ := h
      rw [pbind_eq_ok] at h
      obtain ⟨r, pos2, hex, hk⟩ := h
      simp only [Option.some.injEq, Except.ok.injEq, Prod.mk.injEq] at hk
      obtain ⟨-, rfl⟩ := hk
      obtain ⟨rfl, hlt⟩ := parse_logical_op_ok hop
      have := ihP _ toks (pos + 1) r pos2 hex
      exact ⟨by omega, hlt⟩
    · -- parse_assign
      intro left toks pos e p' h
      simp only [parse_assign] at h
      rw [ebind_eq_ok] at h
      obtain ⟨t1, pos1, heq, h⟩ := h
      obtain ⟨-, -, rfl, hlt⟩ := Parser.expect_ok heq (by decide)
      rw [pbind_eq_ok] at h
      obtain ⟨r, pos2, hex, hk⟩ := h
      have := ihP Precedence.None toks (pos + 1) r pos2 hex
      split at hk
      all_goals first
        | (simp only [Option.some.injEq, Except.ok.injEq, Prod.mk.injEq] at hk
           obtain ⟨-, rfl⟩ := hk
           exact ⟨by omega, hlt⟩)
        | simp at hk
    · -- parse_call
      intro left toks pos e p' h
      simp only [parse_call] at h
      rw [ebind_eq_ok] at h
      obtain ⟨t1, pos1, heq, h⟩ := h
      obtain ⟨-, -, rfl, hlt⟩ := Parser.expect_ok heq (by decide)
      rw [pbind_eq_ok] at h
      obtain ⟨args, pos2, hargs, h⟩ := h
      rw [ebind_eq_ok] at h
      obtain ⟨t2, pos3, heq2, hk⟩ := h
      obtain ⟨-, -, rfl, -⟩ := Parser.expect_ok heq2 (by decide)
      simp only [Option.some.injEq, Except.ok.injEq, Prod.mk.injEq] at hk
      obtain ⟨-, rfl⟩ := hk
      have := ihArgs toks (pos + 1) args pos2 hargs
      exact ⟨by omega, hlt⟩
    · -- parse_arguments
      intro toks pos args p' h
      simp only [parse_arguments] at h
      split_ifs at h
      · simp only [Option.some.injEq, Except.ok.injEq, Prod.mk.injEq] at h
        omega
      · rw [pbind_eq_ok] at h
        obtain ⟨a1, pos1, hex, h⟩ := h
        rw [pbind_eq_ok] at h
        obtain ⟨args1, pos2, hal, hk⟩ := h
        simp only [Option.some.injEq, Except.ok.injEq, Prod.mk.injEq] at hk
        obtain ⟨-, rfl⟩ := hk
        have h1 := ihP Precedence.None toks pos a1 pos1 hex
        have h2 := ihAL toks pos1 args1 pos2 hal
        omega
    · -- parse_arguments_loop
      intro toks pos args p' h
      simp only [parse_arguments_loop] at h
      split_ifs at h
      · rw [ebind_eq_ok] at h
        obtain ⟨t1, pos1, heq, h⟩ := h
        obtain ⟨-, -, rfl, -⟩ := Parser.expect_ok heq (by decide)
        rw [pbind_eq_ok] at h
        obtain ⟨a1, pos2, hex, h⟩ := h
        rw [pbind_eq_ok] at h
        obtain ⟨args1, pos3, hal, hk⟩ := h
        simp only [Option.some.injEq, Except.ok.injEq, Prod.mk.injEq] at hk
        obtain ⟨-, rfl⟩ := hk
        have h1 := ihP Precedence.None toks (pos + 1) a1 pos2 hex
        have h2 := ihAL toks pos2 args1 pos3 hal
        omega
      · simp only [Option.some.injEq, Except.ok.injEq, Prod.mk.injEq] at h
        omega

/-! ### Fuel sufficiency: the parser terminates on every finite stream -/

/-- With fuel at least linear in the number of remaining tokens, no
fuel-indexed parsing function ever runs out of fuel; proved by strong
induction on the bound `R` on the remaining tokens, using `parse_progress`
to see that the remaining-token count strictly decreases across every
recursive call. -/
theorem parse_fuel_sufficient : ∀ R : Nat, ∀ toks : List (WithSpan Token), ∀ pos : Nat,
    List.length toks - pos ≤ R →
    (∀ precedence f, 8 * R + 8 ≤ f → parse_expr f precedence toks pos ≠ none) ∧
    (∀ precedence expr f, 8 * R + 7 ≤ f →
      parse_expr_loop f precedence expr toks pos ≠ none) ∧
    (∀ left f, 8 * R + 6 ≤ f → parse_infix f left toks pos ≠ none) ∧
    (∀ f, 8 * R + 7 ≤ f → parse_prefix f toks pos ≠ none) ∧
    (∀ f, 8 * R + 6 ≤ f → parse_unary f toks pos ≠ none) ∧
    (∀ f, 8 * R + 6 ≤ f → parse_grouping f toks pos ≠ none) ∧
    (∀ left f, 8 * R + 5 ≤ f → parse_binary f left toks pos ≠ none) ∧
    (∀ left f, 8 * R + 5 ≤ f → parse_logical f left toks pos ≠ none) ∧
    (∀ left f, 8 * R + 5 ≤ f → parse_assign f left toks pos ≠ none) ∧
    (∀ left f, 8 * R + 5 ≤ f → parse_call f left toks pos ≠ none) ∧
    (∀ f, 8 * R + 9 ≤ f → parse_arguments f toks pos ≠ none) ∧
    (∀ f, 8 * R + 8 ≤ f → parse_arguments_loop f toks pos ≠ none) := by
  intro R
  induction R using Nat.strong_induction_on with
  | _ R IH =>
    intro toks pos hR
    have hB : ∀ left f, 8 * R + 5 ≤ f → parse_binary f left toks pos ≠ none := by
      intro left f hf
      obtain ⟨f, rfl⟩ : ∃ g, f = g + 1 := ⟨f - 1, by omega⟩
      simp only [parse_binary]
      apply ebind_ne_none
      intro op pos1 hop
      obtain ⟨rfl, hlt⟩ := parse_binary_op_ok hop
      apply pbind_ne_none
      · exact (IH (R - 1) (by omega) toks (pos + 1) (by omega)).1 _ f (by omega)
      · intro r pos2 _
        simp
    have hLg : ∀ left f, 8 * R + 5 ≤ f → parse_logical f left toks pos ≠ none := by
      intro left f hf
      obtain ⟨f, rfl⟩ : ∃ g, f = g + 1 := ⟨f - 1, by omega⟩
      simp only [parse_logical]
      apply ebind_ne_none
      intro op pos1 hop
      obtain ⟨rfl, hlt⟩ := parse_logical_op_ok hop
      apply pbind_ne_none
      · exact (IH (R - 1) (by omega) toks (pos + 1) (by omega)).1 _ f (by omega)
      · intro r pos2 _
        simp
    have hAs : ∀ left f, 8 * R + 5 ≤ f → parse_assign f left toks pos ≠ none := by
      intro left f hf
      obtain ⟨f, rfl⟩ : ∃ g, f = g + 1 := ⟨f - 1, by omega⟩
      simp only [parse_assign]
      apply ebind_ne_none
      intro t1 pos1 heq
      obtain ⟨-, -, rfl, hlt⟩ := Parser.expect_ok heq (by decide)
      apply pbind_ne_none
      · exact (IH (R - 1) (by omega) toks (pos + 1) (by omega)).1 _ f (by omega)
      · intro r pos2 _
        cases left <;> simp
    have hC : ∀ left f, 8 * R + 5 ≤ f → parse_call f left toks pos ≠ none := by
      intro left f hf
      obtain ⟨f, rfl⟩ : ∃ g, f = g + 1 := ⟨f - 1, by omega⟩
      simp only [parse_call]
      apply ebind_ne_none
      intro t1 pos1 heq
      obtain ⟨-, -, rfl, hlt⟩ := Parser.expect_ok heq (by decide)
      apply pbind_ne_none
      · exact (IH (R - 1) (by omega) toks (pos + 1)
          (by omega)).2.2.2.2.2.2.2.2.2.2.1 f (by omega)
      · intro args pos2 _
        apply ebind_ne_none
        intro t2 pos3 _
        simp
    have hI : ∀ left f, 8 * R + 6 ≤ f → parse_infix f left toks pos ≠ none := by
      intro left f hf
      obtain ⟨f, rfl⟩ : ∃ g, f = g + 1 := ⟨f - 1, by omega⟩
      simp only [ parse_infix]
      split
      all_goals first
        | exact hB _ f (by omega)
        | exact hLg _ f (by omega)
        | exact hAs _ f (by omega)
        | exact hC _ f (by omega)
        | simp
    have hU : ∀ f, 8 * R + 6 ≤ f → parse_unary f toks pos ≠ none := by
      intro f hf
      obtain ⟨f, rfl⟩ : ∃ g, f = g + 1 := ⟨f - 1, by omega⟩
      simp only [parse_unary]
      apply ebind_ne_none
      intro op pos1 hop
      obtain ⟨rfl, hlt⟩ := parse_unary_op_ok hop
      apply pbind_ne_none
      · exact (IH (R - 1) (by omega) toks (pos + 1) (by omega)).1 _ f (by omega)
      · intro r pos2 _
        simp
    have hG : ∀ f, 8 * R + 6 ≤ f → parse_grouping f toks pos ≠ none := by
      intro f hf
      obtain ⟨f, rfl⟩ : ∃ g, f = g + 1 := ⟨f - 1, by omega⟩
      simp only [parse_grouping]
      apply ebind_ne_none
      intro lp pos1 hlp
      obtain ⟨-, -, rfl, hlt⟩ := Parser.expect_ok hlp (by decide)
      apply pbind_ne_none
      · exact (IH (R - 1) (by omega) toks (pos + 1) (by omega)).1 _ f (by omega)
      · intro e1 pos2 _
        apply ebind_ne_none
        intro rp pos3 _
        simp
    have hPre : ∀ f, 8 * R + 7 ≤ f → parse_prefix f toks pos ≠ none := by
      intro f hf
      obtain ⟨f, rfl⟩ : ∃ g, f = g + 1 := ⟨f - 1, by omega⟩
      simp only [ parse_prefix]
      split
      all_goals first
        | exact ebind_ne_none (fun ws pos1 _ => by simp)
        | exact hU f (by omega)
        | exact pbind_ne_none (hG f (by omega)) (fun ws pos1 _ => by simp)
        | simp
    have hL : ∀ precedence expr f, 8 * R + 7 ≤ f →
        parse_expr_loop f precedence expr toks pos ≠ none := by
      intro precedence expr f hf
      obtain ⟨f, rfl⟩ : ∃ g, f = g + 1 := ⟨f - 1, by omega⟩
      simp only [parse_expr_loop]
      split_ifs
      · simp
      · simp
      · apply pbind_ne_none
        · exact hI expr f (by omega)
        · intro e2 pos2 hinf
          obtain ⟨hlt2, hlt⟩ := (parse_progress f).2.2.1 expr toks pos e2 pos2 hinf
          exact (IH (R - 1) (by omega) toks pos2 (by omega)).2.1 precedence e2 f (by omega)
    have hP : ∀ precedence f, 8 * R + 8 ≤ f → parse_expr f precedence toks pos ≠ none := by
      intro precedence f hf
      obtain ⟨f, rfl⟩ : ∃ g, f = g + 1 := ⟨f - 1, by omega⟩
      simp only [parse_expr]
      apply pbind_ne_none
      · exact hPre f (by omega)
      · intro e1 pos1 hpre
        obtain ⟨hlt1, hlt⟩ := (parse_progress f).2.2.2.1 toks pos e1 pos1 hpre
        exact (IH (R - 1) (by omega) toks pos1 (by omega)).2.1 precedence e1 f (by omega)
    have hAL : ∀ f, 8 * R + 8 ≤ f → parse_arguments_loop f toks pos ≠ none := by
      intro f hf
      obtain ⟨f, rfl⟩ : ∃ g, f = g + 1 := ⟨f - 1, by omega⟩
      simp only [parse_arguments_loop]
      split_ifs
      · apply ebind_ne_none
        intro t1 pos1 heq
        obtain ⟨-, -, rfl, hlt⟩ := Parser.expect_ok heq (by decide)
        apply pbind_ne_none
        · exact (IH (R - 1) (by omega) toks (pos + 1) (by omega)).1 _ f (by omega)
        · intro a1 pos2 hex
          obtain ⟨h12, -⟩ := (parse_progress f).1 Precedence.None toks (pos + 1) a1 pos2 hex
          apply pbind_ne_none
          · exact (IH (R - 1) (by omega) toks pos2
              (by omega)).2.2.2.2.2.2.2.2.2.2.2 f (by omega)
          · intro args pos3 _
            simp
      · simp
    have hArgs : ∀ f, 8 * R + 9 ≤ f → parse_arguments f toks pos ≠ none := by
      intro f hf
      obtain ⟨f, rfl⟩ : ∃ g, f = g + 1 := ⟨f - 1, by omega⟩
      simp only [parse_arguments]
      split_ifs
      · simp
      · apply pbind_ne_none
        · exact hP Precedence.None f (by omega)
        · intro a1 pos1 hex
          obtain ⟨h01, hlt⟩ := (parse_progress f).1 Precedence.None toks pos a1 pos1 hex
          apply pbind_ne_none
          · exact (IH (R - 1) (by omega) toks pos1
              (by omega)).2.2.2.2.2.2.2.2.2.2.2 f (by omega)
          · intro args pos2 _
            simp
    exact ⟨hP, hL, hI, hPre, hU, hG, hB, hLg, hAs, hC, hArgs, hAL⟩

/-- The public entry point never exhausts its fuel budget. -/
theorem parse_ne_none (toks : List (WithSpan Token)) : parse toks ≠ none := by
  unfold parse
  exact (parse_fuel_sufficient (List.length toks) toks 0 (by omega)).1
    Precedence.None (8 * List.length toks + 8) (by omega)

/-! ### The defensive operator errors are unreachable -/

/-- Holds when a fuel-indexed result is not one of the two defensive
operator-helper errors. -/
def noOperatorError {α : Type} : ParseResult α → Prop := fun r =>
  match r with
  | some (.error (.ExpectedUnaryOperator _)) => False
  | some (.error (.ExpectedBinaryOperator _)) => False
  | _ => True

/-- Holds when a plain fallible result is not one of the two defensive
operator-helper errors. -/
def noOperatorErrorE {α : Type} : Except SyntaxError α → Prop := fun r =>
  match r with
  | .error (.ExpectedUnaryOperator _) => False
  | .error (.ExpectedBinaryOperator _) => False
  | _ => True

theorem noOperatorError_pbind {α β : Type} {m : ParseResult α} {k : α → Nat → ParseResult β}
    (h1 : noOperatorError m) (h2 : ∀ a p, noOperatorError (k a p)) :
    noOperatorError (pbind m k) := by
  cases m with
  | none => trivial
  | some r =>
    cases r with
    | error e => cases e <;> exact h1
    | ok ap => obtain ⟨a, p⟩ := ap; exact h2 a p

theorem noOperatorError_ebind {α β : Type} {m : Except SyntaxError (α × Nat)}
    {k : α → Nat → ParseResult β}
    (h1 : noOperatorErrorE m) (h2 : ∀ a p, noOperatorError (k a p)) :
    noOperatorError (ebind m k) := by
  cases m with
  | error e => cases e <;> exact h1
  | ok ap => obtain ⟨a, p⟩ := ap; exact h2 a p

theorem expect_no_op_error (toks : List (WithSpan Token)) (pos : Nat) (kind : TokenKind) :
    noOperatorErrorE (Parser.expect toks pos kind) := by
  unfold Parser.expect
  split <;> trivial

theorem noOperatorErrorE_error_of {α β : Type} {e : SyntaxError}
    (h : noOperatorErrorE (.error e : Except SyntaxError α)) :
    noOperatorErrorE (.error e : Except SyntaxError β) := by
  cases e <;> exact h

theorem expect_identifier_no_op_error (toks : List (WithSpan Token)) (pos : Nat) :
    noOperatorErrorE (expect_identifier toks pos) := by
  unfold expect_identifier
  split
  split <;> trivial

theorem parse_super_no_op_error (toks : List (WithSpan Token)) (kw : WithSpan Token)
    (pos : Nat) : noOperatorErrorE (parse_super toks kw pos) := by
  unfold parse_super
  split
  · rename_i e heq
    have h := expect_no_op_error toks pos TokenKind.Dot
    rw [heq] at h
    exact noOperatorErrorE_error_of h
  · rename_i t1 pos1 heq
    split
    · rename_i e heq2
      have h := expect_identifier_no_op_error toks pos1
      rw [heq2] at h
      exact noOperatorErrorE_error_of h
    · trivial

theorem parse_primary_no_op_error (toks : List (WithSpan Token)) (pos : Nat) :
    noOperatorErrorE (parse_primary toks pos) := by
  unfold parse_primary
  split
  split
  all_goals first | trivial | exact parse_super_no_op_error _ _ _

theorem parse_get_no_op_error (toks : List (WithSpan Token)) (left : Expr) (pos : Nat) :
    noOperatorErrorE (parse_get toks left pos) := by
  unfold parse_get
  split
  · rename_i e heq
    have h := expect_no_op_error toks pos TokenKind.Dot
    rw [heq] at h
    exact noOperatorErrorE_error_of h
  · rename_i t1 pos1 heq
    split
    split <;> trivial

theorem noOperatorError_some_of {α : Type} {m : Except SyntaxError (α × Nat)}
    (h : noOperatorErrorE m) : noOperatorError (some m) := by
  cases m with
  | error e => cases e <;> exact h
  | ok ap => trivial

/-- The defensive errors `ExpectedUnaryOperator` / `ExpectedBinaryOperator`
are unreachable: every operator-producing helper is only invoked after the
dispatcher checked that the next token belongs to the matching family;
proved by induction on fuel across the mutual functions. -/
theorem parse_no_operator_error : ∀ fuel : Nat,
    (∀ precedence toks pos, noOperatorError (parse_expr fuel precedence toks pos)) ∧
    (∀ precedence expr toks pos,
      noOperatorError (parse_expr_loop fuel precedence expr toks pos)) ∧
    (∀ left toks pos, noOperatorError ( parse_infix fuel left toks pos)) ∧
    (∀ toks pos, noOperatorError ( parse_prefix fuel toks pos)) ∧
    (∀ toks pos,
      (Parser.peek toks pos = TokenKind.Bang ∨ Parser.peek toks pos = TokenKind.Minus) →
      noOperatorError (parse_unary fuel toks pos)) ∧
    (∀ toks pos, noOperatorError (parse_grouping fuel toks pos)) ∧
    (∀ left toks pos,
      (Parser.peek toks pos = TokenKind.BangEqual ∨
       Parser.peek toks pos = TokenKind.EqualEqual ∨
       Parser.peek toks pos = TokenKind.Less ∨
       Parser.peek toks pos = TokenKind.LessEqual ∨
       Parser.peek toks pos = TokenKind.Greater ∨
       Parser.peek toks pos = TokenKind.GreaterEqual ∨
       Parser.peek toks pos = TokenKind.Plus ∨
       Parser.peek toks pos = TokenKind.Minus ∨
       Parser.peek toks pos = TokenKind.Star ∨
       Parser.peek toks pos = TokenKind.Slash) →
      noOperatorError (parse_binary fuel left toks pos)) ∧
    (∀ left toks pos,
      (Parser.peek toks pos = TokenKind.Or ∨ Parser.peek toks pos = TokenKind.And) →
      noOperatorError (parse_logical fuel left toks pos)) ∧
    (∀ left toks pos, noOperatorError (parse_assign fuel left toks pos)) ∧
    (∀ left toks pos, noOperatorError (parse_call fuel left toks pos)) ∧
    (∀ toks pos, noOperatorError (parse_arguments fuel toks pos)) ∧
    (∀ toks pos, noOperatorError (parse_arguments_loop fuel toks pos)) := by
  intro fuel
  induction fuel with
  | zero =>
    refine ⟨?_, ?_, ?_, ?_, ?_, ?_, ?_, ?_, ?_, ?_, ?_, ?_⟩ <;> intros <;> trivial
  | succ f ih =>
    obtain ⟨ihP, ihL, ihI, ihPre, ihU, ihG, ihB, ihLg, ihAs, ihC, ihArgs, ihAL⟩ := ih
    refine ⟨?_, ?_, ?_, ?_, ?_, ?_, ?_, ?_, ?_, ?_, ?_, ?_⟩
    · -- parse_expr
      intro precedence toks pos
      simp only [parse_expr]
      exact noOperatorError_pbind (ihPre toks pos)
        (fun e1 pos1 => ihL precedence e1 toks pos1)
    · -- parse_expr_loop
      intro precedence expr toks pos
      simp only [parse_expr_loop]
      split_ifs
      · trivial
      · trivial
      · exact noOperatorError_pbind (ihI expr toks pos)
          (fun e2 pos2 => ihL precedence e2 toks pos2)
    · -- parse_infix
      intro left toks pos
      simp only [ parse_infix]
      split
      all_goals first
        | (rename_i h; exact ihB _ _ _ (by simp [h]))
        | (rename_i h; exact ihLg _ _ _ (by simp [h]))
        | exact ihAs _ _ _
        | exact ihC _ _ _
        | exact noOperatorError_some_of (parse_get_no_op_error _ _ _)
        | trivial
    · -- parse_prefix
      intro toks pos
      simp only [ parse_prefix]
      split
      all_goals first
        | exact noOperatorError_ebind (parse_primary_no_op_error _ _) (fun _ _ => trivial)
        | (rename_i h; exact ihU _ _ (by simp [h]))
        | exact noOperatorError_pbind (ihG _ _) (fun _ _ => trivial)
        | trivial
    · -- parse_unary
      intro toks pos h
      simp only [parse_unary]
      obtain ⟨op, hok⟩ := parse_unary_op_of_peek h
      refine noOperatorError_ebind ?_ (fun op1 pos1 =>
        noOperatorError_pbind (ihP Precedence.Unary toks pos1) (fun _ _ => trivial))
      rw [hok]
      trivial
    · -- parse_grouping
      intro toks pos
      simp only [parse_grouping]
      exact noOperatorError_ebind (expect_no_op_error _ _ _) (fun lp pos1 =>
        noOperatorError_pbind (ihP Precedence.None toks pos1) (fun e1 pos2 =>
          noOperatorError_ebind (expect_no_op_error _ _ _) (fun _ _ => trivial)))
    · -- parse_binary
      intro left toks pos h
      simp only [parse_binary]
      obtain ⟨op, hok⟩ := parse_binary_op_of_peek h
      refine noOperatorError_ebind ?_ (fun op1 pos1 =>
        noOperatorError_pbind (ihP _ toks pos1) (fun _ _ => trivial))
      rw [hok]
      trivial
    · -- parse_logical
      intro left toks pos h
      simp only [parse_logical]
      obtain ⟨op, hok⟩ := parse_logical_op_of_peek h
      refine noOperatorError_ebind ?_ (fun op1 pos1 =>
        noOperatorError_pbind (ihP _ toks pos1) (fun _ _ => trivial))
      rw [hok]
      trivial
    · -- parse_assign
      intro left toks pos
      simp only [parse_assign]
      refine noOperatorError_ebind (expect_no_op_error _ _ _) (fun t1 pos1 =>
        noOperatorError_pbind (ihP Precedence.None toks pos1) (fun r pos2 => ?_))
      cases left <;> trivial
    · -- parse_call
      intro left toks pos
      simp only [parse_call]
      exact noOperatorError_ebind (expect_no_op_error _ _ _) (fun t1 pos1 =>
        noOperatorError_pbind (ihArgs toks pos1) (fun args pos2 =>
          noOperatorError_ebind (expect_no_op_error _ _ _) (fun _ _ => trivial)))
    · -- parse_arguments
      intro toks pos
      simp only [parse_arguments]
      split_ifs
      · trivial
      · exact noOperatorError_pbind (ihP Precedence.None toks pos) (fun a1 pos1 =>
          noOperatorError_pbind (ihAL toks pos1) (fun _ _ => trivial))
    · -- parse_arguments_loop
      intro toks pos
      simp only [parse_arguments_loop]
      split_ifs
      · exact noOperatorError_ebind (expect_no_op_error _ _ _) (fun t1 pos1 =>
          noOperatorError_pbind (ihP Precedence.None toks pos1) (fun a1 pos2 =>
            noOperatorError_pbind (ihAL toks pos2) (fun _ _ => trivial)))
      · trivial

/-! ### Left-grouping of same-precedence binary-operator chains -/

/-- The token for each binary operator (inverse of the `parse_binary_op`
token match). -/
def BinaryOperator.token : BinaryOperator → Token
  | .BangEqual => Token.BangEqual
  | .EqualEqual => Token.EqualEqual
  | .Less => Token.Less
  | .LessEqual => Token.LessEqual
  | .Greater => Token.Greater
  | .GreaterEqual => Token.GreaterEqual
  | .Plus => Token.Plus
  | .Minus => Token.Minus
  | .Star => Token.Star
  | .Slash => Token.Slash

/-- The two tokens contributed by one chain element: its operator token and
its number literal token. -/
def chainElemToks (p : WithSpan BinaryOperator × Nat × Span) : List (WithSpan Token) :=
  [⟨BinaryOperator.token p.1.value, p.1.span⟩, ⟨Token.Number p.2.1, p.2.2⟩]

/-- Token stream of a chain `a₀ op₁ a₁ op₂ a₂ …` of binary operators over
number literals. -/
def chainToks (n0 : Nat) (sp0 : Span) (rest : List (WithSpan BinaryOperator × Nat × Span)) :
    List (WithSpan Token) :=
  ⟨Token.Number n0, sp0⟩ :: rest.flatMap chainElemToks

/-- The left-grouped expression built from such a chain. -/
def chainFold (acc : Expr) (rest : List (WithSpan BinaryOperator × Nat × Span)) : Expr :=
  rest.foldl (fun acc p => Expr.Binary acc p.1 (Expr.Number p.2.1)) acc

theorem binToken_prec_pos (b : BinaryOperator) :
    1 ≤ (Precedence.fromKind (Token.kind (BinaryOperator.token b))).toNat := by
  cases b <;> decide

theorem parse_primary_number {toks : List (WithSpan Token)} {pos n : Nat} {sp : Span}
    (htok : toks[pos]? = some ⟨Token.Number n, sp⟩) :
    parse_primary toks pos = .ok (⟨Expr.Number n, sp⟩, pos + 1) := by
  have hlt : pos < List.length toks := by
    by_contra hc
    rw [List.getElem?_eq_none (by omega)] at htok
    cases htok
  have hpt : Parser.peek_token toks pos = ⟨Token.Number n, sp⟩ := by
    simp [Parser.peek_token, htok]
  unfold parse_primary
  rw [Parser.advance_of_lt hlt, hpt]

theorem parse_prefix_number {toks : List (WithSpan Token)} {pos n : Nat} {sp : Span} {f : Nat}
    (hf : 1 ≤ f) (htok : toks[pos]? = some ⟨Token.Number n, sp⟩) :
    parse_prefix f toks pos = some (.ok (Expr.Number n, pos + 1)) := by
  obtain ⟨f, rfl⟩ : ∃ g, f = g + 1 := ⟨f - 1, by omega⟩
  have hpk : Parser.peek toks pos = TokenKind.Number := by
    simp [Parser.peek, Parser.peek_token, htok, Token.kind]
  simp only [ parse_prefix]
  rw [hpk, parse_primary_number htok]
  rfl

theorem parse_expr_loop_stop {toks : List (WithSpan Token)} {pos : Nat}
    (precedence : Precedence) (expr : Expr) {f : Nat} (hf : 1 ≤ f)
    (h : (Precedence.fromKind (Parser.peek toks pos)).toNat ≤ precedence.toNat) :
    parse_expr_loop f precedence expr toks pos = some (.ok (expr, pos)) := by
  obtain ⟨f, rfl⟩ : ∃ g, f = g + 1 := ⟨f - 1, by omega⟩
  simp only [parse_expr_loop]
  split_ifs <;> rfl

theorem parse_expr_number {toks : List (WithSpan Token)} {pos n : Nat} {sp : Span}
    (prec : Precedence) {f : Nat} (hf : 2 ≤ f)
    (htok : toks[pos]? = some ⟨Token.Number n, sp⟩)
    (hnext : List.length toks = pos + 1 ∨
      (Precedence.fromKind (Parser.peek toks (pos + 1))).toNat ≤ prec.toNat) :
    parse_expr f prec toks pos = some (.ok (Expr.Number n, pos + 1)) := by
  obtain ⟨f, rfl⟩ : ∃ g, f = g + 1 := ⟨f - 1, by omega⟩
  simp only [parse_expr]
  rw [parse_prefix_number (by omega) htok]
  show parse_expr_loop f prec (Expr.Number n) toks (pos + 1) = _
  rcases hnext with hnext | hnext
  · obtain ⟨f, rfl⟩ : ∃ g, f = g + 1 := ⟨f - 1, by omega⟩
    simp only [parse_expr_loop]
    rw [if_pos (by simp [Parser.is_eof, hnext])]
  · exact parse_expr_loop_stop prec _ (by omega) hnext

theorem parse_binary_op_token {toks : List (WithSpan Token)} {pos : Nat}
    {b : BinaryOperator} {sp : Span}
    (htok : toks[pos]? = some ⟨BinaryOperator.token b, sp⟩) :
    parse_binary_op toks pos = .ok (⟨b, sp⟩, pos + 1) := by
  have hlt : pos < List.length toks := by
    by_contra hc
    rw [List.getElem?_eq_none (by omega)] at htok
    cases htok
  have hpt : Parser.peek_token toks pos = ⟨BinaryOperator.token b, sp⟩ := by
    simp [Parser.peek_token, htok]
  unfold parse_binary_op
  rw [Parser.advance_of_lt hlt, hpt]
  cases b <;> rfl

theorem parse_infix_binary_kind {toks : List (WithSpan Token)} {pos : Nat} {left : Expr}
    {f : Nat} (hf : 1 ≤ f) {b : BinaryOperator}
    (hpk : Parser.peek toks pos = Token.kind (BinaryOperator.token b)) :
    parse_infix f left toks pos = parse_binary (f - 1) left toks pos := by
  obtain ⟨f, rfl⟩ : ∃ g, f = g + 1 := ⟨f - 1, by omega⟩
  simp only [ parse_infix]
  rw [hpk]
  cases b <;> rfl

theorem parse_binary_step {toks : List (WithSpan Token)} {pos : Nat} {left : Expr}
    {f : Nat} (hf : 1 ≤ f) {b : BinaryOperator} {sp : Span}
    (htok : toks[pos]? = some ⟨BinaryOperator.token b, sp⟩) :
    parse_binary f left toks pos =
      pbind (parse_expr (f - 1) (Precedence.fromKind (Parser.peek toks pos)) toks (pos + 1))
        (fun right pos2 => some (.ok (Expr.Binary left ⟨b, sp⟩ right, pos2))) := by
  obtain ⟨f, rfl⟩ : ∃ g, f = g + 1 := ⟨f - 1, by omega⟩
  simp only [parse_binary]
  rw [parse_binary_op_token htok]
  rfl

theorem parse_expr_loop_chain (q : Precedence) :
    ∀ (rest : List (WithSpan BinaryOperator × Nat × Span)) (toks : List (WithSpan Token))
      (pos : Nat) (acc : Expr) (f : Nat),
      toks.drop pos = rest.flatMap chainElemToks →
      pos ≤ List.length toks →
      (∀ p ∈ rest, Precedence.fromKind (Token.kind (BinaryOperator.token p.1.value)) = q) →
      List.length rest + 5 ≤ f →
      parse_expr_loop f Precedence.None acc toks pos =
        some (.ok (chainFold acc rest, List.length toks)) := by
  intro rest
  induction rest with
  | nil =>
    intro toks pos acc f hsuffix hpos hprec hf
    simp only [List.flatMap_nil] at hsuffix
    have hlen : List.length toks ≤ pos := List.drop_eq_nil_iff.mp hsuffix
    have hpe : pos = List.length toks := by omega
    subst hpe
    obtain ⟨f, rfl⟩ : ∃ g, f = g + 1 := ⟨f - 1, by omega⟩
    simp only [parse_expr_loop, chainFold, List.foldl_nil]
    rw [if_pos (by simp [Parser.is_eof])]
  | cons p rest' ih =>
    intro toks pos acc f hsuffix hpos hprec hf
    have h0 : toks[pos]? = some ⟨BinaryOperator.token p.1.value, p.1.span⟩ := by
      have hd := List.getElem?_drop toks pos 0
      rw [hsuffix] at hd
      simpa [chainElemToks] using hd.symm
    have h1 : toks[pos + 1]? = some ⟨Token.Number p.2.1, p.2.2⟩ := by
      have hd := List.getElem?_drop toks pos 1
      rw [hsuffix] at hd
      simpa [chainElemToks] using hd.symm
    have h2 : toks.drop (pos + 2) = rest'.flatMap chainElemToks := by
      have hdd : (toks.drop pos).drop 2 = toks.drop (pos + 2) := by
        rw [List.drop_drop]
      rw [← hdd, hsuffix]
      simp [chainElemToks]
    have hlt1 : pos + 1 < List.length toks := by
      by_contra hc
      rw [List.getElem?_eq_none (by omega)] at h1
      cases h1
    have hpk : Parser.peek toks pos = Token.kind (BinaryOperator.token p.1.value) := by
      simp [Parser.peek, Parser.peek_token, h0]
    have hq : Precedence.fromKind (Parser.peek toks pos) = q := by
      rw [hpk]
      exact hprec p (by simp)
    have hq1 : 1 ≤ q.toNat := by
      rw [← hprec p (by simp)]
      exact binToken_prec_pos p.1.value
    obtain ⟨f, rfl⟩ : ∃ g, f = g + 1 := ⟨f - 1, by simp only [List.length_cons] at hf; omega⟩
    simp only [List.length_cons] at hf
    simp only [parse_expr_loop]
    rw [if_neg (by simp [Parser.is_eof]; omega)]
    have hbr : ¬ (Precedence.fromKind (Parser.peek toks pos)).toNat ≤
        Precedence.None.toNat := by
      rw [hq]
      show ¬ q.toNat ≤ 0
      omega
    rw [if_neg hbr]
    rw [parse_infix_binary_kind (by omega) hpk]
    rw [parse_binary_step (by omega) h0]
    rw [hq]
    rw [parse_expr_number q (by omega) h1 ?hnext]
    case hnext =>
      rcases hr' : rest' with _ | ⟨p', rest''⟩
      · left
        rw [hr'] at h2
        simp only [List.flatMap_nil] at h2
        have := List.drop_eq_nil_iff.mp h2
        omega
      · right
        have h3 : toks[pos + 2]? =
            some ⟨BinaryOperator.token p'.1.value, p'.1.span⟩ := by
          have hd := List.getElem?_drop toks (pos + 2) 0
          rw [h2, hr'] at hd
          simpa [chainElemToks] using hd.symm
        have hpk2 : Parser.peek toks (pos + 1 + 1) =
            Token.kind (BinaryOperator.token p'.1.value) := by
          have : pos + 1 + 1 = pos + 2 := by omega
          rw [this]
          simp [Parser.peek, Parser.peek_token, h3]
        rw [hpk2, hprec p' (by simp [hr'])]
    show parse_expr_loop f Precedence.None
        (Expr.Binary acc ⟨p.1.value, p.1.span⟩ (Expr.Number p.2.1)) toks (pos + 2) = _
    have hfold : chainFold acc (p :: rest') =
        chainFold (Expr.Binary acc p.1 (Expr.Number p.2.1)) rest' := by
      simp [chainFold]
    rw [hfold]
    have hpp : (⟨p.1.value, p.1.span⟩ : WithSpan BinaryOperator) = p.1 := rfl
    rw [hpp]
    exact ih toks (pos + 2) (Expr.Binary acc p.1 (Expr.Number p.2.1)) f h2 (by omega)
      (fun p' hp' => hprec p' (by simp [hp'])) (by omega)

theorem chain_flatMap_length (rest : List (WithSpan BinaryOperator × Nat × Span)) :
    List.length (rest.flatMap chainElemToks) = 2 * List.length rest := by
  induction rest with
  | nil => simp
  | cons p rest' ih =>
    simp only [List.flatMap_cons, List.length_append, List.length_cons, ih,
      chainElemToks]
    simp
    omega

theorem chainToks_length (n0 : Nat) (sp0 : Span)
    (rest : List (WithSpan BinaryOperator × Nat × Span)) :
    List.length (chainToks n0 sp0 rest) = 1 + 2 * List.length rest := by
  show List.length (⟨Token.Number n0, sp0⟩ :: rest.flatMap chainElemToks) = _
  rw [List.length_cons, chain_flatMap_length]
  omega

/-- The public entry point on a chain of same-precedence binary operators
over number literals groups to the left. -/
theorem parse_chain (q : Precedence) (n0 : Nat) (sp0 : Span)
    (rest : List (WithSpan BinaryOperator × Nat × Span))
    (hprec : ∀ p ∈ rest,
      Precedence.fromKind (Token.kind (BinaryOperator.token p.1.value)) = q) :
    parse (chainToks n0 sp0 rest) =
      some (.ok (chainFold (Expr.Number n0) rest,
        List.length (chainToks n0 sp0 rest))) := by
  unfold parse
  have hlen := chainToks_length n0 sp0 rest
  obtain ⟨f, hf⟩ : ∃ g, 8 * List.length (chainToks n0 sp0 rest) + 8 = g + 1 :=
    ⟨8 * List.length (chainToks n0 sp0 rest) + 7, rfl⟩
  rw [hf]
  simp only [parse_expr]
  rw [parse_prefix_number (by omega)
    (show (chainToks n0 sp0 rest)[0]? = some ⟨Token.Number n0, sp0⟩ by
      simp [chainToks])]
  show parse_expr_loop f Precedence.None (Expr.Number n0) (chainToks n0 sp0 rest) 1 = _
  exact parse_expr_loop_chain q rest _ 1 _ f (by simp [chainToks]) (by omega) hprec
    (by omega)

/-- When `!` follows a complete left operand, the infix dispatcher rejects
it with `Unexpected` on the not-yet-consumed `!` token. -/
theorem parse_infix_bang {toks : List (WithSpan Token)} {pos : Nat} {left : Expr} {f : Nat}
    (hf : 1 ≤ f) (h : Parser.peek toks pos = TokenKind.Bang) :
    parse_infix f left toks pos =
      some (.error (.Unexpected (Parser.peek_token toks pos))) := by
  obtain ⟨f, rfl⟩ : ∃ g, f = g + 1 := ⟨f - 1, by omega⟩
  simp only [ parse_infix]
  rw [h]

/-! ### Claim theorems -/

/-- **C1**: for the token stream of `1*2+3*4` the public parse entry point
returns `Binary(Binary(Number 1, *, Number 2), +, Binary(Number 3, *,
Number 4))`; more generally, for any chain of same-precedence binary
operators over number literals the driver groups to the left, because the
recursive call for a right operand is bounded by the operator's own
precedence and the loop only consumes operators of strictly greater
precedence. -/
theorem c1_left_assoc_chain :
    (parse [⟨Token.Number 1, ⟨0, 1⟩⟩, ⟨Token.Star, ⟨1, 2⟩⟩, ⟨Token.Number 2, ⟨2, 3⟩⟩,
            ⟨Token.Plus, ⟨3, 4⟩⟩, ⟨Token.Number 3, ⟨4, 5⟩⟩, ⟨Token.Star, ⟨5, 6⟩⟩,
            ⟨Token.Number 4, ⟨6, 7⟩⟩] =
      some (.ok (Expr.Binary
        (Expr.Binary (Expr.Number 1) ⟨BinaryOperator.Star, ⟨1, 2⟩⟩ (Expr.Number 2))
        ⟨BinaryOperator.Plus, ⟨3, 4⟩⟩
        (Expr.Binary (Expr.Number 3) ⟨BinaryOperator.Star, ⟨5, 6⟩⟩ (Expr.Number 4)),
        7))) ∧
    (∀ (q : Precedence) (n0 : Nat) (sp0 : Span)
        (rest : List (WithSpan BinaryOperator × Nat × Span)),
      (∀ p ∈ rest,
        Precedence.fromKind (Token.kind (BinaryOperator.token p.1.value)) = q) →
      parse (chainToks n0 sp0 rest) =
        some (.ok (chainFold (Expr.Number n0) rest,
          List.length (chainToks n0 sp0 rest)))) :=
  ⟨rfl, fun q n0 sp0 rest hprec => parse_chain q n0 sp0 rest hprec⟩

/-- Witness for C1: the general chain statement applied to the concrete
same-precedence chain `1*2/3`, with both hypotheses discharged by
evaluation. -/
theorem c1_left_assoc_chain_witness :
    parse (chainToks 1 ⟨0, 1⟩ [(⟨BinaryOperator.Star, ⟨1, 2⟩⟩, 2, ⟨2, 3⟩),
        (⟨BinaryOperator.Slash, ⟨3, 4⟩⟩, 3, ⟨4, 5⟩)]) =
      some (.ok (Expr.Binary
        (Expr.Binary (Expr.Number 1) ⟨BinaryOperator.Star, ⟨1, 2⟩⟩ (Expr.Number 2))
        ⟨BinaryOperator.Slash, ⟨3, 4⟩⟩ (Expr.Number 3), 5)) :=
  c1_left_assoc_chain.2 Precedence.Factor 1 ⟨0, 1⟩
    [(⟨BinaryOperator.Star, ⟨1, 2⟩⟩, 2, ⟨2, 3⟩),
     (⟨BinaryOperator.Slash, ⟨3, 4⟩⟩, 3, ⟨4, 5⟩)]
    (by decide)

/-- **C2**: for the token stream of `a=b=3` the public parse entry point
returns `Assign(a, Assign(b, Number 3))`; the same right-nesting holds for
any identifiers, number and spans, because the right-hand side after `=` is
parsed with the lowest precedence bound. -/
theorem c2_assign_right_assoc :
    (parse [⟨Token.Identifier ("a"), ⟨0, 1⟩⟩, ⟨Token.Equal, ⟨1, 2⟩⟩,
            ⟨Token.Identifier ("b"), ⟨2, 3⟩⟩, ⟨Token.Equal, ⟨3, 4⟩⟩,
            ⟨Token.Number 3, ⟨4, 5⟩⟩] =
      some (.ok (Expr.Assign ⟨"a", ⟨0, 1⟩⟩
        (Expr.Assign ⟨"b", ⟨2, 3⟩⟩ (Expr.Number 3)), 5))) ∧
    (∀ (x y : String) (n : Nat) (s1 s2 s3 s4 s5 : Span),
      parse [⟨Token.Identifier x, s1⟩, ⟨Token.Equal, s2⟩, ⟨Token.Identifier y, s3⟩,
             ⟨Token.Equal, s4⟩, ⟨Token.Number n, s5⟩] =
        some (.ok (Expr.Assign ⟨x, s1⟩ (Expr.Assign ⟨y, s3⟩ (Expr.Number n)), 5))) :=
  ⟨rfl, fun _ _ _ _ _ _ _ _ => rfl⟩

/-- **C3 counterexample**: for the token stream of `3=3` parsing does fail
with `InvalidLeftValue` carrying the rejected `Number 3` expression, but the
expression is wrapped by `WithSpan::empty` (a `TODO` in the source), so the
carried span is the empty placeholder `[0,0)` and not the span `[0,1)` of
the offending source text `3`. -/
theorem c3_invalid_left_value_span_counterexample :
    parse [⟨Token.Number 3, ⟨0, 1⟩⟩, ⟨Token.Equal, ⟨1, 2⟩⟩, ⟨Token.Number 3, ⟨2, 3⟩⟩] =
      some (.error (.InvalidLeftValue ⟨Expr.Number 3, ⟨0, 0⟩⟩)) ∧
    (⟨0, 0⟩ : Span) ≠ (⟨0, 1⟩ : Span) ∧
    ((⟨0, 0⟩ : Span)).stop ≤ ((⟨0, 0⟩ : Span)).start :=
  ⟨rfl, by decide, by decide⟩

/-- **C3 amended**: for the token stream of `3=3` parsing fails with
`InvalidLeftValue` carrying the rejected `Number 3` expression (a node, not
a token), wrapped with the empty placeholder span produced by
`WithSpan::empty`, which does not cover the offending source text. -/
theorem c3_invalid_left_value_amended :
    parse [⟨Token.Number 3, ⟨0, 1⟩⟩, ⟨Token.Equal, ⟨1, 2⟩⟩, ⟨Token.Number 3, ⟨2, 3⟩⟩] =
      some (.error (.InvalidLeftValue (WithSpan.empty (Expr.Number 3)))) := rfl

/-- **C4**: for every single literal token (number, string, `true`, `false`,
`nil`) the public parse entry point on that one-token stream returns the
matching leaf node, and the span that primary parsing attaches to that leaf
is exactly the token's span. -/
theorem c4_literal_leaves :
    (∀ (n : Nat) (sp : Span),
      parse [⟨Token.Number n, sp⟩] = some (.ok (Expr.Number n, 1)) ∧
      parse_primary [⟨Token.Number n, sp⟩] 0 = .ok (⟨Expr.Number n, sp⟩, 1)) ∧
    (∀ (s : String) (sp : Span),
      parse [⟨Token.String s, sp⟩] = some (.ok (Expr.String s, 1)) ∧
      parse_primary [⟨Token.String s, sp⟩] 0 = .ok (⟨Expr.String s, sp⟩, 1)) ∧
    (∀ sp : Span,
      parse [⟨Token.True, sp⟩] = some (.ok (Expr.Boolean true, 1)) ∧
      parse_primary [⟨Token.True, sp⟩] 0 = .ok (⟨Expr.Boolean true, sp⟩, 1)) ∧
    (∀ sp : Span,
      parse [⟨Token.False, sp⟩] = some (.ok (Expr.Boolean false, 1)) ∧
      parse_primary [⟨Token.False, sp⟩] 0 = .ok (⟨Expr.Boolean false, sp⟩, 1)) ∧
    (∀ sp : Span,
      parse [⟨Token.Nil, sp⟩] = some (.ok (Expr.Nil, 1)) ∧
      parse_primary [⟨Token.Nil, sp⟩] 0 = .ok (⟨Expr.Nil, sp⟩, 1)) :=
  ⟨fun _ _ => ⟨rfl, rfl⟩, fun _ _ => ⟨rfl, rfl⟩, fun _ => ⟨rfl, rfl⟩,
   fun _ => ⟨rfl, rfl⟩, fun _ => ⟨rfl, rfl⟩⟩

/-- **C5**: tokens after a complete expression are left unconsumed and cause
no error: the token stream of `1+2 3` parses to `Binary(1,+,2)` with the
cursor left at the `3` token (index 3); in general, any next token whose
precedence does not exceed the bound stops the driver loop without being
consumed. -/
theorem c5_trailing_tokens :
    (parse [⟨Token.Number 1, ⟨0, 1⟩⟩, ⟨Token.Plus, ⟨1, 2⟩⟩, ⟨Token.Number 2, ⟨2, 3⟩⟩,
            ⟨Token.Number 3, ⟨4, 5⟩⟩] =
      some (.ok (Expr.Binary (Expr.Number 1) ⟨BinaryOperator.Plus, ⟨1, 2⟩⟩
        (Expr.Number 2), 3))) ∧
    (∀ (toks : List (WithSpan Token)) (pos : Nat) (precedence : Precedence)
        (expr : Expr) (f : Nat), 1 ≤ f →
      (Precedence.fromKind (Parser.peek toks pos)).toNat ≤ precedence.toNat →
      parse_expr_loop f precedence expr toks pos = some (.ok (expr, pos))) :=
  ⟨rfl, fun _ _ precedence expr _ hf h => parse_expr_loop_stop precedence expr hf h⟩

/-- Witness for C5: the loop-stop statement applied at the `3` token of
`1+2 3` with both hypotheses discharged by evaluation. -/
theorem c5_trailing_tokens_witness :
    parse_expr_loop 1 Precedence.None (Expr.Number 1)
        [⟨Token.Number 1, ⟨0, 1⟩⟩, ⟨Token.Number 3, ⟨2, 3⟩⟩] 1 =
      some (.ok (Expr.Number 1, 1)) :=
  c5_trailing_tokens.2 [⟨Token.Number 1, ⟨0, 1⟩⟩, ⟨Token.Number 3, ⟨2, 3⟩⟩] 1
    Precedence.None (Expr.Number 1) 1 (by decide) (by decide)

/-- **C6**: parsing the token stream of `1+` returns the typed failure
`Unexpected` (on the end-of-stream token) rather than crashing; the failure
arises inside the prefix recognizer at the exhausted position and is
surfaced verbatim by the entry point with no partial result, and in general
the driver returns any prefix failure unchanged. -/
theorem c6_unterminated_binary :
    (parse [⟨Token.Number 1, ⟨0, 1⟩⟩, ⟨Token.Plus, ⟨1, 2⟩⟩] =
      some (.error (.Unexpected eofToken))) ∧
    ( parse_prefix 1 [⟨Token.Number 1, ⟨0, 1⟩⟩, ⟨Token.Plus, ⟨1, 2⟩⟩] 2 =
      some (.error (.Unexpected eofToken))) ∧
    (∀ (f : Nat) (precedence : Precedence) (toks : List (WithSpan Token)) (pos : Nat)
        (e : SyntaxError), parse_prefix f toks pos = some (.error e) →
      parse_expr (f + 1) precedence toks pos = some (.error e)) := by
  refine ⟨rfl, rfl, ?_⟩
  intro f precedence toks pos e h
  simp only [parse_expr]
  rw [h]
  rfl

/-- Witness for C6: the error-propagation statement applied to the prefix
failure of `1+` at the exhausted position, hypothesis discharged by
evaluation. -/
theorem c6_unterminated_binary_witness :
    parse_expr 2 Precedence.Term [⟨Token.Number 1, ⟨0, 1⟩⟩, ⟨Token.Plus, ⟨1, 2⟩⟩] 2 =
      some (.error (.Unexpected eofToken)) :=
  c6_unterminated_binary.2.2 1 Precedence.Term
    [⟨Token.Number 1, ⟨0, 1⟩⟩, ⟨Token.Plus, ⟨1, 2⟩⟩] 2 (.Unexpected eofToken) rfl

/-- **C7**: call parsing accepts an empty argument list (`a()` yields a
`Call` with an empty sequence), collects comma-separated arguments in
source order (`a(3,4)`), and rejects a trailing comma: `a(3,)` fails with
`Unexpected` carrying the closing `)` token. -/
theorem c7_call_arguments :
    (parse [⟨Token.Identifier ("a"), ⟨0, 1⟩⟩, ⟨Token.LeftParen, ⟨1, 2⟩⟩,
            ⟨Token.RightParen, ⟨2, 3⟩⟩] =
      some (.ok (Expr.Call (Expr.Variable ⟨"a", ⟨0, 1⟩⟩) [], 3))) ∧
    (parse [⟨Token.Identifier ("a"), ⟨0, 1⟩⟩, ⟨Token.LeftParen, ⟨1, 2⟩⟩,
            ⟨Token.Number 3, ⟨2, 3⟩⟩, ⟨Token.Comma, ⟨3, 4⟩⟩, ⟨Token.Number 4, ⟨4, 5⟩⟩,
            ⟨Token.RightParen, ⟨5, 6⟩⟩] =
      some (.ok (Expr.Call (Expr.Variable ⟨"a", ⟨0, 1⟩⟩)
        [Expr.Number 3, Expr.Number 4], 6))) ∧
    (parse [⟨Token.Identifier ("a"), ⟨0, 1⟩⟩, ⟨Token.LeftParen, ⟨1, 2⟩⟩,
            ⟨Token.Number 3, ⟨2, 3⟩⟩, ⟨Token.Comma, ⟨3, 4⟩⟩,
            ⟨Token.RightParen, ⟨4, 5⟩⟩] =
      some (.error (.Unexpected ⟨Token.RightParen, ⟨4, 5⟩⟩))) :=
  ⟨rfl, rfl, rfl⟩

/-- **C8**: the Unary precedence assigned to `!` in the precedence table is
inert for infix parsing: the driver's precedence check passes (`Unary`
exceeds the lowest bound), but whenever `!` follows a complete left operand
the infix dispatcher rejects it, failing with `Unexpected` carrying the
still-unconsumed `!` token — concretely, `1 ! 2` fails that way. -/
theorem c8_bang_infix_inert :
    (Precedence.None.toNat < (Precedence.fromKind TokenKind.Bang).toNat) ∧
    (parse [⟨Token.Number 1, ⟨0, 1⟩⟩, ⟨Token.Bang, ⟨2, 3⟩⟩, ⟨Token.Number 2, ⟨4, 5⟩⟩] =
      some (.error (.Unexpected ⟨Token.Bang, ⟨2, 3⟩⟩))) ∧
    (∀ (toks : List (WithSpan Token)) (pos : Nat) (left : Expr) (f : Nat), 1 ≤ f →
      Parser.peek toks pos = TokenKind.Bang →
      parse_infix f left toks pos =
        some (.error (.Unexpected (Parser.peek_token toks pos)))) :=
  ⟨by decide, rfl, fun _ _ _ _ hf h => parse_infix_bang hf h⟩

/-- Witness for C8: the infix-rejection statement applied to a concrete `!`
token, hypotheses discharged by evaluation. -/
theorem c8_bang_infix_inert_witness :
    parse_infix 1 Expr.Nil [⟨Token.Bang, ⟨0, 1⟩⟩] 0 =
      some (.error (.Unexpected ⟨Token.Bang, ⟨0, 1⟩⟩)) :=
  c8_bang_infix_inert.2.2 [⟨Token.Bang, ⟨0, 1⟩⟩] 0 Expr.Nil 1 (by decide) (by decide)

/-- **C9**: for every input token stream, the public parse entry point never
returns `ExpectedUnaryOperator` or `ExpectedBinaryOperator`: the
operator-producing helpers are only invoked after the dispatcher has checked
the next token's family, so their error branches are unreachable. -/
theorem c9_no_defensive_operator_errors (toks : List (WithSpan Token))
    (t : WithSpan Token) :
    parse toks ≠ some (.error (.ExpectedUnaryOperator t)) ∧
    parse toks ≠ some (.error (.ExpectedBinaryOperator t)) := by
  have h := (parse_no_operator_error (8 * List.length toks + 8)).1 Precedence.None toks 0
  unfold parse
  constructor <;> intro hc <;> rw [hc] at h <;> exact h

/-- Witness for C9: the statement applied to a concrete one-token stream. -/
theorem c9_no_defensive_operator_errors_witness :
    parse [⟨Token.Bang, ⟨0, 1⟩⟩] ≠ some (.error (.ExpectedUnaryOperator eofToken)) ∧
    parse [⟨Token.Bang, ⟨0, 1⟩⟩] ≠ some (.error (.ExpectedBinaryOperator eofToken)) :=
  c9_no_defensive_operator_errors [⟨Token.Bang, ⟨0, 1⟩⟩] eofToken

/-- **C10**: the parser terminates on every finite token stream: the fuel
budget of the public entry point is never exhausted, because every
successful call to the prefix recognizer or the infix dispatcher consumes at
least one token, so the number of remaining tokens strictly decreases along
every recursive call chain. -/
theorem c10_parser_terminates :
    (∀ toks : List (WithSpan Token), parse toks ≠ none) ∧
    (∀ (f : Nat) (toks : List (WithSpan Token)) (pos : Nat) (e : Expr) (p' : Nat),
      parse_prefix f toks pos = some (.ok (e, p')) → pos < p') ∧
    (∀ (f : Nat) (left : Expr) (toks : List (WithSpan Token)) (pos : Nat) (e : Expr)
        (p' : Nat), parse_infix f left toks pos = some (.ok (e, p')) → pos < p') :=
  ⟨parse_ne_none,
   fun f toks pos e p' h => ((parse_progress f).2.2.2.1 toks pos e p' h).1,
   fun f left toks pos e p' h => ((parse_progress f).2.2.1 left toks pos e p' h).1⟩

/-- Witness for C10: the entry point produces a definite result on a
concrete stream, and the progress statements applied at concrete successful
calls, hypotheses discharged by evaluation. -/
theorem c10_parser_terminates_witness :
    parse [⟨Token.Number 1, ⟨0, 1⟩⟩] ≠ none ∧ (0 : Nat) < 1 ∧ (0 : Nat) < 2 :=
  ⟨c10_parser_terminates.1 [⟨Token.Number 1, ⟨0, 1⟩⟩],
   c10_parser_terminates.2.1 2 [⟨Token.Number 1, ⟨0, 1⟩⟩] 0 (Expr.Number 1) 1 rfl,
   c10_parser_terminates.2.2 5 (Expr.Number 1)
     [⟨Token.Plus, ⟨0, 1⟩⟩, ⟨Token.Number 2, ⟨1, 2⟩⟩] 0
     (Expr.Binary (Expr.Number 1) ⟨BinaryOperator.Plus, ⟨0, 1⟩⟩ (Expr.Number 2)) 2 rfl⟩
